import Mathlib

/-!
Shallow embedding of `src/frontend/src-tauri/src/lib.rs` (rippermod-manager):
the installation resolver (`detect_game_paths` and its scanners), the
path probe (`is_valid_cyberpunk_path`), the VDF value extractor
(`extract_vdf_value`), the game launcher (`launch_game`), the sidecar
health poll (the loop inside `spawn_sidecar`) and sidecar termination
(`kill_sidecar`).

Strings are modelled as `List Char` (`Str`): every string operation used by
the code (`replace` of a single char, `to_lowercase`, `contains`,
`starts_with`, `trim`, `lines`, `char_indices`) is ASCII-transparent on the
inputs involved, so the char-list model is faithful.  The filesystem is an
abstract map from paths to entries (`FS`); `Path::exists()` is metadata
being obtainable, i.e. the entry being present, whatever its kind.
`Path::join` with the relative components used by this code appends the
Windows separator and the component.
-/

namespace RipperMod

/-- Strings as lists of characters. -/
abbrev Str := List Char

/-- Coerce a Lean string literal to the char-list model. -/
def str (s : String) : Str := s.data

/-- A filesystem entry: a regular file or a directory.
(`Path::exists()` in the source does not distinguish them.) -/
inductive Entry where
  | file
  | dir
deriving DecidableEq, Repr

/-- Abstract filesystem: which entry, if any, sits at each path.
`none` covers both absence and any metadata error, which is exactly how
`std::fs::metadata(..).is_ok()` (the implementation of `Path::exists`)
collapses them. -/
abbrev FS := Str → Option Entry

/-- `Path::join` with a relative component on Windows: append `\` and the
component.  All joins in the source use relative components. -/
def pathJoin (p c : Str) : Str := p ++ '\\' :: c

/-- `path.exists()`: metadata is obtainable. -/
def pathExists (fs : FS) (p : Str) : Bool := (fs p).isSome

/-- Rust `char::to_lowercase` restricted to the ASCII range used by
paths and display names in this code. -/
def lowerStr (s : Str) : Str := s.map Char.toLower

/-- Rust `str::is_prefix`-style check: `needle.isPrefixOf hay`,
wrapped for readability. -/
def strStartsWith (hay needle : Str) : Bool := needle.isPrefixOf hay

/-- Rust `str::contains(substring)`: some suffix of `hay` starts
with `needle`. -/
def strContains (hay : Str) (needle : Str) : Bool :=
  needle.isPrefixOf hay ||
    match hay with
    | [] => false
    | _ :: rest => strContains rest needle

/-- The record produced per detected installation
(struct `DetectedGame { path, source }`). -/
structure DetectedGame where
  path : Str
  source : Str
deriving DecidableEq, Repr

/-- The dedup key of `detect_game_paths`:
`g.path.replace('/', "\\").to_lowercase()`. -/
def normalizePath (p : Str) : Str :=
  lowerStr (p.map (fun c => if c = '/' then '\\' else c))

/-- The `results.retain(|g| seen.insert(normalized))` pass of
`detect_game_paths`: keep an entry iff its normalized path has not been
seen before; the `HashSet` is modelled as the list of keys inserted so
far. -/
def dedupCandidates : List DetectedGame → List Str → List DetectedGame
  | [], _ => []
  | g :: rest, seen =>
    let key := normalizePath g.path
    if key ∈ seen then dedupCandidates rest seen
    else g :: dedupCandidates rest (key :: seen)

/-! ## The path probe (`is_valid_cyberpunk_path`) -/

/-- The path probed by `is_valid_cyberpunk_path`:
`path.join("bin").join("x64").join("Cyberpunk2077.exe")`. -/
def gameExePath (p : Str) : Str :=
  pathJoin (pathJoin (pathJoin p (str "bin")) (str "x64")) (str "Cyberpunk2077.exe")

/-- `is_valid_cyberpunk_path`: the joined executable path `.exists()`. -/
def isValidCyberpunkPath (fs : FS) (p : Str) : Bool :=
  pathExists fs (gameExePath p)

/-! ## The VDF value extractor (`extract_vdf_value`) -/

/-- Indices (relative to a running offset) at which `"` occurs; mirrors
`line.char_indices().filter(c == quote)`. -/
def quotePosAux : Str → Nat → List Nat
  | [], _ => []
  | c :: rest, i =>
    if c = '"' then i :: quotePosAux rest (i + 1) else quotePosAux rest (i + 1)

/-- All positions of `"` in the line. -/
def quotePositions (line : Str) : List Nat := quotePosAux line 0

/-- `extract_vdf_value`: with at least four quote positions, the span
strictly between the last two quote positions, provided it is nonempty. -/
def extractVdfValue (line : Str) : Option Str :=
  let qs := quotePositions line
  if 4 ≤ qs.length then
    let start := qs.getD (qs.length - 2) 0 + 1
    let e := qs.getD (qs.length - 1) 0
    if start < e then some ((line.take e).drop start) else none
  else none

/-- The extractor as the spec describes it: for at least two quoted
tokens, the substring between the last two quote characters, with no
nonemptiness proviso.  Kept separate to compare against the source
function. -/
def extractVdfValueSpec (line : Str) : Option Str :=
  let qs := quotePositions line
  if 4 ≤ qs.length then
    some ((line.take (qs.getD (qs.length - 1) 0)).drop (qs.getD (qs.length - 2) 0 + 1))
  else none

/-- `path_value.replace("\\\\", "\\")` in `detect_steam`: collapse each
doubled backslash, left to right, non-overlapping. -/
def collapseBackslashes : Str → Str
  | '\\' :: '\\' :: rest => '\\' :: collapseBackslashes rest
  | c :: rest => c :: collapseBackslashes rest
  | [] => []

/-! ## The Steam scanner (`detect_steam`) -/

/-- Rust `str::trim` on the ASCII whitespace that occurs in VDF lines. -/
def strTrim (s : Str) : Str :=
  (s.dropWhile Char.isWhitespace).reverse.dropWhile Char.isWhitespace |>.reverse

/-- Rust `str::lines`: split on newline (the trailing `\r` of a CRLF line
is removed by the `trim` that follows in the source). -/
def splitLines (s : Str) : List Str := s.splitOn '\n'

/-- The registry/file inputs of `detect_steam`: the `SteamPath` registry
value (`none` when the key or value is missing) and the content of
`steamapps/libraryfolders.vdf` (`none` when the read fails). -/
structure SteamWorld where
  steamPath : Option Str
  vdfContent : Option Str

/-- The body of the `for line in content.lines()` loop of `detect_steam`:
fold each line into the accumulated library list. -/
def steamLineStep (libs : List Str) (line : Str) : List Str :=
  let trimmed := strTrim line
  if strStartsWith trimmed (str "\"path\"") then
    match extractVdfValue trimmed with
    | some pathValue =>
      let clean := collapseBackslashes pathValue
      if libs.any (fun p => lowerStr p = lowerStr clean) then libs
      else libs ++ [clean]
    | none => libs
  else libs

/-- The library roots scanned by `detect_steam`: the registry root plus the
roots parsed out of `libraryfolders.vdf`. -/
def steamLibraryPaths (w : SteamWorld) (steamPath : Str) : List Str :=
  match w.vdfContent with
  | none => [steamPath]
  | some content => (splitLines content).foldl steamLineStep [steamPath]

/-- `lib.join("steamapps").join("common").join("Cyberpunk 2077")`. -/
def steamGamePath (lib : Str) : Str :=
  pathJoin (pathJoin (pathJoin lib (str "steamapps")) (str "common")) (str "Cyberpunk 2077")

/-- `detect_steam`: probe each library root and emit a `Steam` candidate
for each valid one. -/
def detectSteam (fs : FS) (w : SteamWorld) : List DetectedGame :=
  match w.steamPath with
  | none => []
  | some steamPath =>
    ((steamLibraryPaths w steamPath).filter
        (fun lib => isValidCyberpunkPath fs (steamGamePath lib))).map
      (fun lib => ⟨steamGamePath lib, str "Steam"⟩)

/-! ## The GOG scanner (`detect_gog`) -/

/-- One uninstall-registry subkey as read by `detect_gog`: the
`DisplayName` and `InstallLocation` values, each possibly missing.
Subkeys that fail to open contribute nothing and are modelled as absent
from the enumeration. -/
structure RegEntry where
  displayName : Option Str
  installLocation : Option Str

/-- The two registry views enumerated by `detect_gog`
(`SOFTWARE\...\Uninstall` and `SOFTWARE\WOW6432Node\...\Uninstall`);
`none` means `open_subkey` failed for that view. -/
structure GogWorld where
  view64 : Option (List RegEntry)
  view32 : Option (List RegEntry)

/-- The per-subkey body of `detect_gog`: match the display name against
both tokens, then read and probe the install location. -/
def gogEntryCandidate (fs : FS) (e : RegEntry) : Option DetectedGame :=
  match e.displayName with
  | none => none
  | some dn =>
    let lower := lowerStr dn
    if strContains lower (str "cyberpunk") && strContains lower (str "2077") then
      match e.installLocation with
      | some loc => if isValidCyberpunkPath fs loc then some ⟨loc, str "GOG"⟩ else none
      | none => none
    else none

/-- One registry view's contribution: nothing when the view failed to
open, else the candidates of its subkeys in enumeration order. -/
def gogViewCandidates (fs : FS) : Option (List RegEntry) → List DetectedGame
  | none => []
  | some entries => entries.filterMap (gogEntryCandidate fs)

/-- `detect_gog`: both registry views, 64-bit first. -/
def detectGog (fs : FS) (w : GogWorld) : List DetectedGame :=
  gogViewCandidates fs w.view64 ++ gogViewCandidates fs w.view32

/-! ## The Epic scanner (`detect_epic`) -/

/-- A parsed Epic `.item` manifest: the `DisplayName` and
`InstallLocation` JSON fields, each possibly missing. -/
structure EpicManifest where
  displayName : Option Str
  installLocation : Option Str

/-- One directory entry of the Epic manifests directory, as `detect_epic`
sees it: wrong extension, unreadable, JSON parse failure, or parsed. -/
inductive EpicFile where
  | notItem
  | unreadable
  | malformed
  | parsed (m : EpicManifest)

/-- The Epic input: `none` when the manifests directory does not exist or
`read_dir` fails. -/
structure EpicWorld where
  files : Option (List EpicFile)

/-- The per-file body of `detect_epic`'s loop: skip non-`.item`,
unreadable and malformed files; default a missing `DisplayName` to `""`;
match both tokens; probe the install location. -/
def epicFileCandidate (fs : FS) : EpicFile → Option DetectedGame
  | .notItem => none
  | .unreadable => none
  | .malformed => none
  | .parsed m =>
    let lower := lowerStr (m.displayName.getD [])
    if strContains lower (str "cyberpunk") && strContains lower (str "2077") then
      match m.installLocation with
      | some loc => if isValidCyberpunkPath fs loc then some ⟨loc, str "Epic"⟩ else none
      | none => none
    else none

/-- `detect_epic`: nothing when the manifests directory is unavailable;
otherwise each file's candidates in directory order. -/
def detectEpic (fs : FS) (w : EpicWorld) : List DetectedGame :=
  match w.files with
  | none => []
  | some files => files.filterMap (epicFileCandidate fs)

/-! ## The static scanner (`detect_common_paths`) -/

/-- The hard-coded candidate list of `detect_common_paths`. -/
def commonPaths : List Str :=
  [str "C:\\Program Files (x86)\\Steam\\steamapps\\common\\Cyberpunk 2077",
   str "C:\\Program Files\\Steam\\steamapps\\common\\Cyberpunk 2077",
   str "C:\\GOG Games\\Cyberpunk 2077",
   str "D:\\SteamLibrary\\steamapps\\common\\Cyberpunk 2077",
   str "D:\\Games\\Cyberpunk 2077",
   str "E:\\SteamLibrary\\steamapps\\common\\Cyberpunk 2077",
   str "E:\\Games\\Cyberpunk 2077",
   str "G:\\SteamLibrary\\steamapps\\common\\Cyberpunk 2077"]

/-- `detect_common_paths`: probe each hard-coded path. -/
def detectCommonPaths (fs : FS) : List DetectedGame :=
  (commonPaths.filter (isValidCyberpunkPath fs)).map
    (fun p => ⟨p, str "Common Path"⟩)

/-! ## The resolver (`detect_game_paths`) -/

/-- Everything the scanners read: the filesystem plus the Steam, GOG and
Epic registry/manifest inputs. -/
structure World where
  fs : FS
  steam : SteamWorld
  gog : GogWorld
  epic : EpicWorld

/-- The `results` vector of `detect_game_paths` before deduplication:
on Windows the `cfg(target_os = "windows")` block runs Steam, GOG and
Epic in that order; the static scanner runs unconditionally last. -/
def allCandidates (onWindows : Bool) (w : World) : List DetectedGame :=
  (if onWindows then
    detectSteam w.fs w.steam ++ detectGog w.fs w.gog ++ detectEpic w.fs w.epic
   else []) ++ detectCommonPaths w.fs

/-- `detect_game_paths`: gather all candidates, then the seen-set
`retain` pass. -/
def detectGamePaths (onWindows : Bool) (w : World) : List DetectedGame :=
  dedupCandidates (allCandidates onWindows w) []

/-! ## The health poll inside `spawn_sidecar` -/

/-- The attempt budget of the health poll (`max_attempts`). -/
def maxAttempts : Nat := 60

/-- The inter-attempt delay in milliseconds (`Duration::from_millis(500)`). -/
def pollDelayMillis : Nat := 500

/-- The two events the poll can emit. -/
inductive PollEvent where
  | backendReady
  | backendStartupFailed
deriving DecidableEq, Repr

/-- What one run of the poll loop did: how many attempts ran, and the
events emitted (in order). -/
structure PollResult where
  attemptsMade : Nat
  events : List PollEvent
deriving DecidableEq, Repr

/-- One attempt of the health poll.  `none` stands for any I/O failure of
the attempt (connection refused, write failure, read timeout);
`some r` is the full HTTP response text read from the socket.  The check
is `response.contains("200") && response.contains("healthy")`. -/
def attemptHealthy : Option Str → Bool
  | none => false
  | some r => strContains r (str "200") && strContains r (str "healthy")

/-- The `for attempt in 1..=max_attempts` loop: `made` attempts already
ran, `fuel` attempts remain.  Success returns (emitting `backend-ready`);
exhaustion falls through to `backend-startup-failed`. -/
def healthPollAux (resp : Nat → Option Str) : Nat → Nat → PollResult
  | made, 0 => ⟨made, [.backendStartupFailed]⟩
  | made, fuel + 1 =>
    if attemptHealthy (resp (made + 1)) then ⟨made + 1, [.backendReady]⟩
    else healthPollAux resp (made + 1) fuel

/-- The health-poll task spawned by `spawn_sidecar`. -/
def healthPoll (resp : Nat → Option Str) : PollResult :=
  healthPollAux resp 0 maxAttempts

/-! ## Sidecar termination (`kill_sidecar`) -/

/-- The `BackendProcess` state managed behind the mutex: the optional
child handle (modelled by an id). -/
structure BackendProcess where
  child : Option Nat
deriving DecidableEq, Repr

/-- Storing the spawned child (`bp.child = Some(child)` in
`spawn_sidecar`). -/
def storeChild (_s : BackendProcess) (h : Nat) : BackendProcess := ⟨some h⟩

/-- `kill_sidecar`: take the handle out of the state if present and issue
a forceful kill whose own result (`killResult`) the code discards
(`let _ = child.kill()`); the second component lists the handles a kill
was issued for. -/
def killSidecar (killResult : Bool) (s : BackendProcess) :
    BackendProcess × List Nat :=
  match s.child with
  | some h =>
    let _ := killResult
    (⟨none⟩, [h])
  | none => (s, [])

/-! ## The launcher (`launch_game`) -/

/-- `format!("Game executable not found: {}", exe_path.display())`. -/
def executableNotFoundMsg (p : Str) : Str :=
  str "Game executable not found: " ++ p

/-- `format!("Failed to launch game: {}", e)`. -/
def spawnFailedMsg (e : Str) : Str :=
  str "Failed to launch game: " ++ e

/-- A process-creation request: the program and the argument tokens
handed to the OS verbatim (`Command::new(..).args(..)`, no shell). -/
structure SpawnCall where
  exe : Str
  args : List Str
deriving DecidableEq, Repr

/-- `launch_game`: join, re-validate existence, then spawn without
waiting.  `spawnError call = some e` models `cmd.spawn()` failing at the
OS level with error `e`; the second component lists the spawns
attempted. -/
def launchGame (fs : FS) (spawnError : SpawnCall → Option Str)
    (installPath exeRelativePath : Str) (launchArgs : Option (List Str)) :
    Except Str Unit × List SpawnCall :=
  let exePath := pathJoin installPath exeRelativePath
  if pathExists fs exePath = false then
    (.error (executableNotFoundMsg exePath), [])
  else
    let call : SpawnCall := ⟨exePath, launchArgs.getD []⟩
    match spawnError call with
    | some e => (.error (spawnFailedMsg e), [call])
    | none => (.ok (), [call])

/-- A filesystem whose only entry is a directory sitting exactly where the
probe looks for the game executable. -/
def dirOnlyFS : FS := fun q =>
  if q = gameExePath (str "C:\\CP") then some Entry.dir else none

/-! ## Sample worlds used by the closed witnesses -/

/-- A filesystem granting exactly the installs whose executable path
normalizes (case/slash-insensitively) to the default 32-bit Steam
library location of the game. -/
def sampleFS : FS := fun p =>
  if normalizePath p =
      normalizePath (gameExePath
        (str "C:\\Program Files (x86)\\Steam\\steamapps\\common\\Cyberpunk 2077"))
  then some Entry.file else none

/-- A world whose Steam registry root is the default Steam directory in a
different letter case, so the Steam scanner and the static scanner find
the same install under two spellings. -/
def sampleWorld : World :=
  { fs := sampleFS
    steam := ⟨some (str "c:\\program files (x86)\\steam"), none⟩
    gog := ⟨none, none⟩
    epic := ⟨none⟩ }

/-- The candidate the Steam scanner produces in `sampleWorld`. -/
def sampleSteamGame : DetectedGame :=
  ⟨steamGamePath (str "c:\\program files (x86)\\steam"), str "Steam"⟩

/-- `sampleWorld` with a corrupted (unparsable) Epic manifest. -/
def corruptedWorld : World :=
  { sampleWorld with epic := ⟨some [EpicFile.malformed]⟩ }

theorem dedupCandidates_nil (seen : List Str) : dedupCandidates [] seen = [] := rfl

/-- Kept entries never carry a key from the initial `seen` set. -/
theorem dedupCandidates_key_not_seen (l : List DetectedGame) (seen : List Str) :
    ∀ g ∈ dedupCandidates l seen, normalizePath g.path ∉ seen := by
  induction l generalizing seen with
  | nil => intro g hg; simp [dedupCandidates] at hg
  | cons a rest ih =>
    intro g hg
    simp only [dedupCandidates] at hg
    by_cases hk : normalizePath a.path ∈ seen
    · simp [hk] at hg
      exact ih seen g hg
    · simp [hk] at hg
      rcases hg with hg | hg
      · subst hg; exact hk
      · have := ih (normalizePath a.path :: seen) g hg
        intro hc; exact this (List.mem_cons_of_mem _ hc)

/-- The normalized keys of the dedup output are pairwise distinct. -/
theorem dedupCandidates_keys_nodup (l : List DetectedGame) (seen : List Str) :
    ((dedupCandidates l seen).map (fun g => normalizePath g.path)).Nodup := by
  induction l generalizing seen with
  | nil => simp [dedupCandidates]
  | cons a rest ih =>
    simp only [dedupCandidates]
    by_cases hk : normalizePath a.path ∈ seen
    · simp only [hk, if_true]; exact ih seen
    · simp only [hk, if_false, List.map_cons, List.nodup_cons]
      refine ⟨?_, ih (normalizePath a.path :: seen)⟩
      intro hmem
      rcases List.mem_map.mp hmem with ⟨g, hg, hkey⟩
      have := dedupCandidates_key_not_seen rest (normalizePath a.path :: seen) g hg
      exact this (by rw [hkey]; exact List.mem_cons_self _ _)

/-- A key occurs in the dedup output iff it occurs in the input and was
not already seen. -/
theorem dedupCandidates_mem_key (l : List DetectedGame) (seen : List Str) (k : Str) :
    (∃ g ∈ dedupCandidates l seen, normalizePath g.path = k) ↔
      (∃ g ∈ l, normalizePath g.path = k) ∧ k ∉ seen := by
  induction l generalizing seen with
  | nil => simp [dedupCandidates]
  | cons a rest ih =>
    simp only [dedupCandidates]
    by_cases hk : normalizePath a.path ∈ seen
    · simp only [hk, if_true]
      rw [ih]
      constructor
      · rintro ⟨⟨g, hg, hgk⟩, hns⟩
        exact ⟨⟨g, List.mem_cons_of_mem _ hg, hgk⟩, hns⟩
      · rintro ⟨⟨g, hg, hgk⟩, hns⟩
        rcases List.mem_cons.mp hg with h | h
        · subst h
          exact absurd (hgk ▸ hk) hns
        · exact ⟨⟨g, h, hgk⟩, hns⟩
    · simp only [hk, if_false]
      constructor
      · rintro ⟨g, hg, hgk⟩
        rcases List.mem_cons.mp hg with h | h
        · subst h
          exact ⟨⟨g, List.mem_cons_self _ _, hgk⟩, hgk ▸ hk⟩
        · have := (ih (normalizePath a.path :: seen) |>.mp ⟨g, h, hgk⟩)
          rcases this with ⟨⟨g', hg', hgk'⟩, hns⟩
          exact ⟨⟨g', List.mem_cons_of_mem _ hg', hgk'⟩,
            fun hc => hns (List.mem_cons_of_mem _ hc)⟩
      · rintro ⟨⟨g, hg, hgk⟩, hns⟩
        rcases List.mem_cons.mp hg with h | h
        · subst h
          exact ⟨g, List.mem_cons_self _ _, hgk⟩
        · by_cases hka : k = normalizePath a.path
          · exact ⟨a, List.mem_cons_self _ _, hka.symm⟩
          · have : ∃ g' ∈ dedupCandidates rest (normalizePath a.path :: seen),
                normalizePath g'.path = k := by
              rw [ih]
              refine ⟨⟨g, h, hgk⟩, ?_⟩
              intro hc
              rcases List.mem_cons.mp hc with h' | h'
              · exact hka h'
              · exact hns h'
            rcases this with ⟨g', hg', hgk'⟩
            exact ⟨g', List.mem_cons_of_mem _ hg', hgk'⟩

/-- Each kept entry is the first entry of the input with its key. -/
theorem dedupCandidates_first_wins (l : List DetectedGame) (seen : List Str) :
    ∀ g ∈ dedupCandidates l seen,
      l.find? (fun h => decide (normalizePath h.path = normalizePath g.path)) = some g := by
  induction l generalizing seen with
  | nil => intro g hg; simp [dedupCandidates] at hg
  | cons a rest ih =>
    intro g hg
    simp only [dedupCandidates] at hg
    by_cases hk : normalizePath a.path ∈ seen
    · simp only [hk, if_true] at hg
      have hfind := ih seen g hg
      have hne : normalizePath a.path ≠ normalizePath g.path := by
        intro he
        exact dedupCandidates_key_not_seen rest seen g hg (he ▸ hk)
      rw [List.find?_cons]
      simp [hne, hfind]
    · simp only [hk, if_false] at hg
      rcases List.mem_cons.mp hg with h | h
      · subst h
        rw [List.find?_cons]
        simp
      · have hfind := ih (normalizePath a.path :: seen) g h
        have hne : normalizePath a.path ≠ normalizePath g.path := by
          intro he
          exact dedupCandidates_key_not_seen rest (normalizePath a.path :: seen) g h
            (he ▸ List.mem_cons_self _ _)
        rw [List.find?_cons]
        simp [hne, hfind]

/-- The dedup pass only drops entries; it never reorders or rewrites. -/
theorem dedupCandidates_sublist (l : List DetectedGame) (seen : List Str) :
    (dedupCandidates l seen).Sublist l := by
  induction l generalizing seen with
  | nil => simp [dedupCandidates]
  | cons a rest ih =>
    simp only [dedupCandidates]
    by_cases hk : normalizePath a.path ∈ seen
    · simp only [hk, if_true]
      exact (ih seen).trans (List.sublist_cons_self a rest)
    · simp only [hk, if_false]
      exact List.Sublist.cons₂ a (ih (normalizePath a.path :: seen))

/-! ## Facts about the quote positions of a line -/

theorem quotePosAux_bounds (s : Str) (i : Nat) :
    ∀ j ∈ quotePosAux s i, i ≤ j ∧ j < i + s.length := by
  induction s generalizing i with
  | nil => intro j hj; simp [quotePosAux] at hj
  | cons c rest ih =>
    intro j hj
    simp only [quotePosAux] at hj
    by_cases hc : c = '"'
    · simp only [hc, if_true, List.mem_cons] at hj
      rcases hj with hj | hj
      · subst hj; exact ⟨Nat.le_refl _, by simp [Nat.lt_add_of_pos_right, Nat.succ_pos]⟩
      · have := ih (i + 1) j hj
        exact ⟨Nat.le_of_succ_le this.1, by
          have := this.2; simpa [Nat.add_assoc, Nat.add_comm 1] using this⟩
    · simp only [hc, if_false] at hj
      have := ih (i + 1) j hj
      exact ⟨Nat.le_of_succ_le this.1, by
        have := this.2; simpa [Nat.add_assoc, Nat.add_comm 1] using this⟩

theorem quotePosAux_sorted (s : Str) (i : Nat) :
    (quotePosAux s i).Sorted (· < ·) := by
  induction s generalizing i with
  | nil => simp [quotePosAux, List.Sorted]
  | cons c rest ih =>
    simp only [quotePosAux]
    by_cases hc : c = '"'
    · simp only [hc, if_true]
      refine List.Pairwise.cons ?_ (ih (i + 1))
      intro j hj
      exact Nat.lt_of_succ_le (quotePosAux_bounds rest (i + 1) j hj).1
    · simp only [hc, if_false]; exact ih (i + 1)

/-- A `"` in the string is registered in `quotePosAux`. -/
theorem mem_quotePosAux (s : Str) (i : Nat) :
    ∀ k, (hk : k < s.length) → s.get ⟨k, hk⟩ = '"' → (i + k) ∈ quotePosAux s i := by
  induction s generalizing i with
  | nil => intro k hk; simp at hk
  | cons c rest ih =>
    intro k hk hq
    simp only [quotePosAux]
    cases k with
    | zero =>
      simp only [List.get] at hq
      simp [hq]
    | succ k' =>
      simp only [List.get] at hq
      have hk' : k' < rest.length := Nat.lt_of_succ_lt_succ hk
      have := ih (i + 1) k' hk' hq
      have harith : i + 1 + k' = i + (k' + 1) := by omega
      by_cases hc : c = '"'
      · simp only [hc, if_true]
        exact List.mem_cons_of_mem _ (harith ▸ this)
      · simp only [hc, if_false]
        exact harith ▸ this

theorem healthPollAux_attempts_le (resp : Nat → Option Str) (made fuel : Nat) :
    (healthPollAux resp made fuel).attemptsMade ≤ made + fuel := by
  induction fuel generalizing made with
  | zero => simp [healthPollAux]
  | succ f ih =>
    simp only [healthPollAux]
    cases h : attemptHealthy (resp (made + 1)) with
    | true => simp only [if_true]; omega
    | false =>
      simp only [Bool.false_eq_true, if_false]
      have := ih (made + 1)
      omega

theorem healthPollAux_attempts_ge (resp : Nat → Option Str) (made fuel : Nat) :
    made ≤ (healthPollAux resp made fuel).attemptsMade := by
  induction fuel generalizing made with
  | zero => simp [healthPollAux]
  | succ f ih =>
    simp only [healthPollAux]
    cases h : attemptHealthy (resp (made + 1)) with
    | true => simp only [if_true]; omega
    | false =>
      simp only [Bool.false_eq_true, if_false]
      have := ih (made + 1)
      omega

theorem healthPollAux_all_fail (resp : Nat → Option Str) (made fuel : Nat)
    (h : ∀ k, made < k → k ≤ made + fuel → attemptHealthy (resp k) = false) :
    healthPollAux resp made fuel = ⟨made + fuel, [.backendStartupFailed]⟩ := by
  induction fuel generalizing made with
  | zero => simp [healthPollAux]
  | succ f ih =>
    simp only [healthPollAux]
    have h1 : attemptHealthy (resp (made + 1)) = false :=
      h (made + 1) (Nat.lt_succ_self _) (by omega)
    simp only [h1, Bool.false_eq_true, if_false]
    have := ih (made + 1) (fun k hk1 hk2 => h k (by omega) (by omega))
    rw [this]
    congr 1
    omega

theorem healthPollAux_first_success (resp : Nat → Option Str) (made fuel k : Nat)
    (hk1 : made < k) (hk2 : k ≤ made + fuel)
    (hs : attemptHealthy (resp k) = true)
    (hmin : ∀ j, made < j → j < k → attemptHealthy (resp j) = false) :
    healthPollAux resp made fuel = ⟨k, [.backendReady]⟩ := by
  induction fuel generalizing made with
  | zero => omega
  | succ f ih =>
    simp only [healthPollAux]
    by_cases he : k = made + 1
    · subst he
      simp [hs]
    · have hfail : attemptHealthy (resp (made + 1)) = false :=
        hmin (made + 1) (Nat.lt_succ_self _) (by omega)
      simp only [hfail, Bool.false_eq_true, if_false]
      exact ih (made + 1) (by omega) (by omega)
        (fun j hj1 hj2 => hmin j (by omega) hj2)

/-- The poll only ever consults attempts it actually performs: two
response schedules agreeing on all performed attempts give the same run. -/
theorem healthPollAux_frame (resp resp' : Nat → Option Str) (made fuel : Nat)
    (h : ∀ j, made < j → j ≤ (healthPollAux resp made fuel).attemptsMade →
      resp j = resp' j) :
    healthPollAux resp' made fuel = healthPollAux resp made fuel := by
  induction fuel generalizing made with
  | zero => simp [healthPollAux]
  | succ f ih =>
    have hstep : resp (made + 1) = resp' (made + 1) := by
      refine h (made + 1) (Nat.lt_succ_self _) ?_
      simp only [healthPollAux]
      by_cases hh : attemptHealthy (resp (made + 1)) = true
      · simp [hh]
      · simp only [hh, Bool.false_eq_true, if_false]
        exact healthPollAux_attempts_ge resp (made + 1) f
    simp only [healthPollAux, ← hstep]
    by_cases hh : attemptHealthy (resp (made + 1)) = true
    · simp [hh]
    · simp only [hh, Bool.false_eq_true, if_false]
      refine ih (made + 1) ?_
      intro j hj1 hj2
      refine h j (by omega) ?_
      simp only [healthPollAux, hh, Bool.false_eq_true, if_false]
      exact hj2

/-! ## Supporting lemmas for the extractor -/

theorem quotePositions_sorted (line : Str) :
    (quotePositions line).Sorted (· < ·) :=
  quotePosAux_sorted line 0

theorem quotePositions_lt_length (line : Str) :
    ∀ j ∈ quotePositions line, j < line.length := by
  intro j hj
  have := (quotePosAux_bounds line 0 j hj).2
  simpa using this

theorem mem_quotePositions (line : Str) (k : Nat) (hk : k < line.length)
    (hq : line.get ⟨k, hk⟩ = '"') : k ∈ quotePositions line := by
  have := mem_quotePosAux line 0 k hk hq
  simpa using this

/-- The source extractor agrees with the spec's description filtered by
nonemptiness of the extracted span. -/
theorem extractVdfValue_eq_spec_filter (line : Str) :
    extractVdfValue line =
      (extractVdfValueSpec line).bind (fun v => if v = [] then none else some v) := by
  by_cases h4 : 4 ≤ (quotePositions line).length
  · have hmem : (quotePositions line).getD ((quotePositions line).length - 1) 0 ∈
        quotePositions line := by
      rw [List.getD_eq_getElem _ 0 (by omega)]
      exact List.getElem_mem _
    have helt : (quotePositions line).getD ((quotePositions line).length - 1) 0 <
        line.length := quotePositions_lt_length line _ hmem
    simp only [extractVdfValue, extractVdfValueSpec, h4, if_true, Option.some_bind]
    set s := (quotePositions line).getD ((quotePositions line).length - 2) 0 + 1 with hs
    set e := (quotePositions line).getD ((quotePositions line).length - 1) 0 with he
    have hslice : ((line.take e).drop s).length = e - s := by
      rw [List.length_drop, List.length_take]
      omega
    by_cases hlt : s < e
    · have hne : (line.take e).drop s ≠ [] := by
        intro hnil
        rw [hnil] at hslice
        simp at hslice
        omega
      simp [hlt, hne]
    · have hnil : (line.take e).drop s = [] := by
        have : ((line.take e).drop s).length = 0 := by omega
        exact List.eq_nil_of_length_eq_zero this
      simp [hlt, hnil]
  · simp [extractVdfValue, extractVdfValueSpec, h4]

/-- Indices of the quote-position list are monotone in the positions. -/
theorem quotePositions_mono (line : Str) (i j : Nat)
    (hi : i < (quotePositions line).length) (hj : j < (quotePositions line).length)
    (hij : i ≤ j) :
    (quotePositions line).get ⟨i, hi⟩ ≤ (quotePositions line).get ⟨j, hj⟩ := by
  rcases Nat.eq_or_lt_of_le hij with hEq | hLt
  · subst hEq; exact Nat.le_refl _
  · exact Nat.le_of_lt
      ((quotePositions_sorted line).rel_get_of_lt (a := ⟨i, hi⟩) (b := ⟨j, hj⟩) hLt)

/-! ## Claim C9 -/

/-- No position strictly between the last two quote positions carries a
quote character. -/
theorem no_quote_between_last_two (line : Str) (j : Nat)
    (h2 : (quotePositions line).length - 2 < (quotePositions line).length)
    (h1 : (quotePositions line).length - 1 < (quotePositions line).length)
    (hj : j < line.length)
    (hlo : (quotePositions line).get ⟨(quotePositions line).length - 2, h2⟩ < j)
    (hhi : j < (quotePositions line).get ⟨(quotePositions line).length - 1, h1⟩) :
    line.get ⟨j, hj⟩ ≠ '"' := by
  intro hq
  have hmem := mem_quotePositions line j hj hq
  obtain ⟨idx, hidx, hqidx⟩ := List.mem_iff_getElem.mp hmem
  have hget : (quotePositions line).get ⟨idx, hidx⟩ = j := hqidx
  by_cases hsplit : idx ≤ (quotePositions line).length - 2
  · have hmono := quotePositions_mono line idx ((quotePositions line).length - 2)
      hidx h2 hsplit
    rw [hget] at hmono
    omega
  · have hge : (quotePositions line).length - 1 ≤ idx := by omega
    have hmono := quotePositions_mono line ((quotePositions line).length - 1) idx
      h1 hidx hge
    rw [hget] at hmono
    omega

/-- C9: `extract_vdf_value` never returns an empty or quote-containing
string: any value it returns is the nonempty span strictly between the
two rightmost quote positions, so it is not `[]` and contains no `"`. -/
theorem extract_vdf_value_nonempty_no_quotes (line : Str) (v : Str)
    (h : extractVdfValue line = some v) : v ≠ [] ∧ '"' ∉ v := by
  by_cases h4 : 4 ≤ (quotePositions line).length
  case neg => simp [extractVdfValue, h4] at h
  have h2 : (quotePositions line).length - 2 < (quotePositions line).length := by omega
  have h1 : (quotePositions line).length - 1 < (quotePositions line).length := by omega
  have hA : (quotePositions line).getD ((quotePositions line).length - 2) 0 =
      (quotePositions line).get ⟨(quotePositions line).length - 2, h2⟩ := by
    rw [List.getD_eq_getElem _ 0 h2, List.get_eq_getElem]
  have hB : (quotePositions line).getD ((quotePositions line).length - 1) 0 =
      (quotePositions line).get ⟨(quotePositions line).length - 1, h1⟩ := by
    rw [List.getD_eq_getElem _ 0 h1, List.get_eq_getElem]
  simp only [extractVdfValue, h4, if_true, hA, hB] at h
  by_cases hlt : (quotePositions line).get ⟨(quotePositions line).length - 2, h2⟩ + 1 <
      (quotePositions line).get ⟨(quotePositions line).length - 1, h1⟩
  case neg => rw [if_neg hlt] at h; exact Option.noConfusion h
  rw [if_pos hlt] at h
  have hv := Option.some.inj h
  subst hv
  have hhi_lt : (quotePositions line).get
      ⟨(quotePositions line).length - 1, h1⟩ < line.length :=
    quotePositions_lt_length line _ (List.get_mem _ _ _)
  have hvlen : (List.drop
      ((quotePositions line).get ⟨(quotePositions line).length - 2, h2⟩ + 1)
      (List.take ((quotePositions line).get ⟨(quotePositions line).length - 1, h1⟩)
        line)).length =
      (quotePositions line).get ⟨(quotePositions line).length - 1, h1⟩ -
        ((quotePositions line).get ⟨(quotePositions line).length - 2, h2⟩ + 1) := by
    rw [List.length_drop, List.length_take]
    omega
  constructor
  · intro hnil
    rw [hnil] at hvlen
    simp only [List.length_nil] at hvlen
    omega
  · intro hq
    obtain ⟨k, hk, hvk⟩ := List.mem_iff_getElem.mp hq
    have hklen : k <
        (quotePositions line).get ⟨(quotePositions line).length - 1, h1⟩ -
          ((quotePositions line).get ⟨(quotePositions line).length - 2, h2⟩ + 1) := by
      rw [hvlen] at hk
      exact hk
    rw [List.getElem_drop, List.getElem_take] at hvk
    have hjlt : (quotePositions line).get ⟨(quotePositions line).length - 2, h2⟩ + 1 + k <
        line.length := by omega
    have hget : line.get
        ⟨(quotePositions line).get ⟨(quotePositions line).length - 2, h2⟩ + 1 + k,
          hjlt⟩ = '"' := by
      rw [List.get_eq_getElem]
      exact hvk
    exact no_quote_between_last_two line _ h2 h1 hjlt (by omega) (by omega) hget

/-- C9 witness: the value extracted from the sample VDF line is nonempty
and quote-free. -/
theorem extract_vdf_value_nonempty_no_quotes_witness :
    str "C:\\\\Games\\\\Lib" ≠ [] ∧ '"' ∉ str "C:\\\\Games\\\\Lib" :=
  extract_vdf_value_nonempty_no_quotes (str "\"path\"  \"C:\\\\Games\\\\Lib\"")
    (str "C:\\\\Games\\\\Lib") (by decide)

/-! ## Claim C3 -/

/-- C3 counterexample: at a filesystem whose entry at
`C:\CP\bin\x64\Cyberpunk2077.exe` is a directory, not a regular file,
`is_valid_cyberpunk_path` still returns `true` (Rust's `Path::exists()`
accepts any entity), refuting "returns true iff ... exists as a regular,
readable file". -/
theorem is_valid_cyberpunk_path_counterexample :
    isValidCyberpunkPath dirOnlyFS (str "C:\\CP") = true ∧
    dirOnlyFS (gameExePath (str "C:\\CP")) = some Entry.dir ∧
    dirOnlyFS (gameExePath (str "C:\\CP")) ≠ some Entry.file := by
  refine ⟨by decide, by decide, by decide⟩

/-- C3 amended: `is_valid_cyberpunk_path(root)` returns true iff any
filesystem entity (regular file or directory) is present at
`root\bin\x64\Cyberpunk2077.exe`; absence, or any metadata error, gives
false, and the probe is a total function (never raises). -/
theorem is_valid_cyberpunk_path_amended (fs : FS) (root : Str) :
    (isValidCyberpunkPath fs root = true ↔
      ∃ en, fs (root ++ str "\\bin\\x64\\Cyberpunk2077.exe") = some en) ∧
    (fs (root ++ str "\\bin\\x64\\Cyberpunk2077.exe") = none →
      isValidCyberpunkPath fs root = false) := by
  have hpath : gameExePath root = root ++ str "\\bin\\x64\\Cyberpunk2077.exe" := by
    show (((root ++ '\\' :: str "bin") ++ '\\' :: str "x64") ++
        '\\' :: str "Cyberpunk2077.exe") = root ++ str "\\bin\\x64\\Cyberpunk2077.exe"
    rw [List.append_assoc, List.append_assoc]
    congr 1
  constructor
  · rw [isValidCyberpunkPath, pathExists, hpath, Option.isSome_iff_exists]
  · intro hnone
    rw [isValidCyberpunkPath, pathExists, hpath, hnone]
    rfl

/-- C3 amended witness: on the empty filesystem the probe returns false. -/
theorem is_valid_cyberpunk_path_amended_witness :
    isValidCyberpunkPath (fun _ => none) (str "C:\\CP") = false :=
  (is_valid_cyberpunk_path_amended (fun _ => none) (str "C:\\CP")).2 rfl

/-! ## Claim C4 -/

/-- C4 counterexample: the line `"path" ""` has two quoted tokens (four
quotes), so by the claim extraction should return the substring between
the last two quote characters (the empty string); the source returns
nothing instead. -/
theorem extract_vdf_value_counterexample :
    extractVdfValue (str "\"path\" \"\"") = none ∧
    extractVdfValueSpec (str "\"path\" \"\"") = some [] ∧
    (quotePositions (str "\"path\" \"\"")).length = 4 := by
  refine ⟨by decide, by decide, by decide⟩

/-- C4 amended: value extraction returns the substring between the last
two quote characters when that substring is nonempty, and nothing when it
is empty or when the line has fewer than two quoted tokens; the Steam
scanner's collapsing of doubled backslashes turns the extracted value of
`"path"  "C:\\Games\\Lib"` into `C:\Games\Lib`. -/
theorem extract_vdf_value_amended (line : Str) :
    extractVdfValue line =
      (extractVdfValueSpec line).bind (fun v => if v = [] then none else some v) ∧
    ((quotePositions line).length < 4 → extractVdfValue line = none) ∧
    (extractVdfValue (str "\"path\"  \"C:\\\\Games\\\\Lib\"")).map collapseBackslashes =
      some (str "C:\\Games\\Lib") := by
  refine ⟨extractVdfValue_eq_spec_filter line, ?_, by decide⟩
  intro hlt
  simp [extractVdfValue, show ¬ 4 ≤ (quotePositions line).length from by omega]

/-- C4 amended witness: a quoteless line has fewer than two quoted tokens
and extraction returns nothing. -/
theorem extract_vdf_value_amended_witness :
    extractVdfValue (str "no quotes here") = none :=
  (extract_vdf_value_amended (str "no quotes here")).2.1 (by decide)

/-! ## Claim C2 -/

/-- C2: the health poll performs at most `max_attempts = 60` attempts with
a 500 ms sleep between attempts; an attempt succeeds iff a full response
text was read and it contains both `200` and `healthy`; on the first
successful attempt `k` the poll emits `backend-ready` exactly once and
performs no attempts after `k` (it never consults later attempts); if all
60 attempts fail it emits `backend-startup-failed` exactly once. -/
theorem health_poll_spec (resp : Nat → Option Str) :
    maxAttempts = 60 ∧ pollDelayMillis = 500 ∧
    (∀ k, attemptHealthy (resp k) = true ↔
      ∃ r, resp k = some r ∧ strContains r (str "200") = true ∧
        strContains r (str "healthy") = true) ∧
    (healthPoll resp).attemptsMade ≤ 60 ∧
    ((∀ k, 1 ≤ k → k ≤ 60 → attemptHealthy (resp k) = false) →
      healthPoll resp = ⟨60, [.backendStartupFailed]⟩) ∧
    (∀ k, 1 ≤ k → k ≤ 60 → attemptHealthy (resp k) = true →
      (∀ j, 1 ≤ j → j < k → attemptHealthy (resp j) = false) →
      healthPoll resp = ⟨k, [.backendReady]⟩) ∧
    (∀ resp', (∀ j, 1 ≤ j → j ≤ (healthPoll resp).attemptsMade → resp j = resp' j) →
      healthPoll resp' = healthPoll resp) := by
  refine ⟨rfl, rfl, ?_, ?_, ?_, ?_, ?_⟩
  · intro k
    cases hres : resp k with
    | none => simp [attemptHealthy]
    | some r =>
      simp only [attemptHealthy, Bool.and_eq_true, Option.some.injEq]
      constructor
      · rintro ⟨h1, h2⟩
        exact ⟨r, rfl, h1, h2⟩
      · rintro ⟨r', hr', h1, h2⟩
        cases hr'
        exact ⟨h1, h2⟩
  · exact healthPollAux_attempts_le resp 0 maxAttempts
  · intro hfail
    exact healthPollAux_all_fail resp 0 maxAttempts
      (fun k h1 h2 => hfail k h1 (by simpa [maxAttempts] using h2))
  · intro k h1 h2 hs hmin
    exact healthPollAux_first_success resp 0 maxAttempts k h1
      (by simpa [maxAttempts] using h2) hs (fun j hj1 hj2 => hmin j hj1 hj2)
  · intro resp' hagree
    exact healthPollAux_frame resp resp' 0 maxAttempts hagree

/-- C2 witness: against an endpoint that never answers, the poll performs
all 60 attempts and emits `backend-startup-failed`. -/
theorem health_poll_spec_witness :
    healthPoll (fun _ => none) = ⟨60, [.backendStartupFailed]⟩ :=
  (health_poll_spec (fun _ => none)).2.2.2.2.1 (fun _ _ _ => rfl)

/-! ## Claim C5 -/

/-- C5: `kill_sidecar` is idempotent: with no stored handle it is a no-op
(and issues no kill); after any call the state holds no handle; two calls
in a row leave no handle and the second issues no kill; a call after a
spawn kills exactly the stored handle and clears the state; the result of
the forceful kill is ignored (the outcome does not depend on it). -/
theorem kill_sidecar_idempotent (r r' : Bool) (s : BackendProcess) (hd : Nat) :
    ((killSidecar r s).1.child = none) ∧
    (s.child = none → killSidecar r s = (s, [])) ∧
    (killSidecar r' (killSidecar r s).1 = ((killSidecar r s).1, [])) ∧
    (s.child = some hd → killSidecar r s = (⟨none⟩, [hd])) ∧
    (killSidecar r (storeChild s hd) = (⟨none⟩, [hd])) ∧
    (killSidecar r s = killSidecar r' s) := by
  cases s with
  | mk child =>
    cases child with
    | none =>
      refine ⟨rfl, fun _ => rfl, rfl, ?_, rfl, rfl⟩
      intro hcontra
      exact Option.noConfusion hcontra
    | some h0 =>
      refine ⟨rfl, ?_, rfl, ?_, rfl, rfl⟩
      · intro hcontra
        exact Option.noConfusion hcontra
      · intro hEq
        rw [Option.some.inj hEq]
        rfl

/-- C5 witness: terminating twice from an empty state stays a no-op. -/
theorem kill_sidecar_idempotent_witness :
    killSidecar true ⟨none⟩ = (⟨none⟩, []) :=
  (kill_sidecar_idempotent true true ⟨none⟩ 0).2.1 rfl

/-! ## Claim C6 -/

/-- C6: `launch_game` joins the install path and the relative executable
path; when the joined file does not exist it returns the
executable-not-found error and attempts no spawn; when it exists it
issues exactly one spawn with the argument tokens passed verbatim
(an omitted argument list means no tokens), returns the spawn-failed
error iff process creation itself errors, and returns success
otherwise. -/
theorem launch_game_spec (fs : FS) (spawnError : SpawnCall → Option Str)
    (installPath exeRelativePath : Str) (launchArgs : Option (List Str)) :
    (pathExists fs (pathJoin installPath exeRelativePath) = false →
      launchGame fs spawnError installPath exeRelativePath launchArgs =
        (.error (executableNotFoundMsg (pathJoin installPath exeRelativePath)), [])) ∧
    (pathExists fs (pathJoin installPath exeRelativePath) = true →
      (launchGame fs spawnError installPath exeRelativePath launchArgs).2 =
        [⟨pathJoin installPath exeRelativePath, launchArgs.getD []⟩] ∧
      (∀ e, (launchGame fs spawnError installPath exeRelativePath launchArgs).1 =
          .error (spawnFailedMsg e) ↔
        spawnError ⟨pathJoin installPath exeRelativePath, launchArgs.getD []⟩ = some e) ∧
      (spawnError ⟨pathJoin installPath exeRelativePath, launchArgs.getD []⟩ = none →
        (launchGame fs spawnError installPath exeRelativePath launchArgs).1 =
          .ok ())) := by
  constructor
  · intro hmiss
    simp [launchGame, hmiss]
  · intro hexists
    have hne : pathExists fs (pathJoin installPath exeRelativePath) = false ↔ False := by
      simp [hexists]
    cases hsp : spawnError ⟨pathJoin installPath exeRelativePath, launchArgs.getD []⟩ with
    | none =>
      refine ⟨?_, ?_, ?_⟩
      · simp [launchGame, hne, hsp]
      · intro e
        simp [launchGame, hne, hsp]
      · intro _
        simp [launchGame, hne, hsp]
    | some e' =>
      refine ⟨?_, ?_, ?_⟩
      · simp [launchGame, hne, hsp]
      · intro e
        simp only [launchGame, hne, if_false, hsp]
        constructor
        · intro hEq
          have h1 := Except.error.inj hEq
          exact congrArg some (List.append_cancel_left h1)
        · intro hEq
          rw [Option.some.inj hEq]
      · intro hcontra
        exact Option.noConfusion hcontra

/-- C6 witness: on the empty filesystem the launch re-validation fails
with the not-found error and no spawn is attempted. -/
theorem launch_game_spec_witness :
    launchGame (fun _ => none) (fun _ => none) (str "C:\\CP") (str "bin\\x64\\game.exe")
        none =
      (.error (executableNotFoundMsg (pathJoin (str "C:\\CP") (str "bin\\x64\\game.exe"))),
        []) :=
  (launch_game_spec (fun _ => none) (fun _ => none) (str "C:\\CP")
    (str "bin\\x64\\game.exe") none).1 rfl

/-! ## Per-scanner soundness: candidates are emitted only after probing -/

theorem detectSteam_sound (fs : FS) (sw : SteamWorld) :
    ∀ g ∈ detectSteam fs sw,
      g.source = str "Steam" ∧ isValidCyberpunkPath fs g.path = true := by
  obtain ⟨sp, vdf⟩ := sw
  cases sp with
  | none => intro g hg; simp [detectSteam] at hg
  | some p =>
    intro g hg
    simp only [detectSteam, List.mem_map, List.mem_filter] at hg
    obtain ⟨lib, ⟨hmem, hval⟩, rfl⟩ := hg
    exact ⟨rfl, hval⟩

theorem gogEntryCandidate_sound (fs : FS) (e : RegEntry) (g : DetectedGame)
    (h : gogEntryCandidate fs e = some g) :
    g.source = str "GOG" ∧ isValidCyberpunkPath fs g.path = true := by
  simp only [gogEntryCandidate] at h
  split at h
  · exact Option.noConfusion h
  · split at h
    · split at h
      · split at h
        · cases Option.some.inj h
          exact ⟨rfl, by assumption⟩
        · exact Option.noConfusion h
      · exact Option.noConfusion h
    · exact Option.noConfusion h

theorem gogViewCandidates_sound (fs : FS) (v : Option (List RegEntry)) :
    ∀ g ∈ gogViewCandidates fs v,
      g.source = str "GOG" ∧ isValidCyberpunkPath fs g.path = true := by
  intro g hg
  cases v with
  | none => simp [gogViewCandidates] at hg
  | some entries =>
    simp only [gogViewCandidates, List.mem_filterMap] at hg
    obtain ⟨e, _, heq⟩ := hg
    exact gogEntryCandidate_sound fs e g heq

theorem detectGog_sound (fs : FS) (gw : GogWorld) :
    ∀ g ∈ detectGog fs gw,
      g.source = str "GOG" ∧ isValidCyberpunkPath fs g.path = true := by
  intro g hg
  simp only [detectGog, List.mem_append] at hg
  rcases hg with h | h
  · exact gogViewCandidates_sound fs gw.view64 g h
  · exact gogViewCandidates_sound fs gw.view32 g h

theorem epicFileCandidate_sound (fs : FS) (f : EpicFile) (g : DetectedGame)
    (h : epicFileCandidate fs f = some g) :
    g.source = str "Epic" ∧ isValidCyberpunkPath fs g.path = true := by
  cases f with
  | notItem => exact Option.noConfusion h
  | unreadable => exact Option.noConfusion h
  | malformed => exact Option.noConfusion h
  | parsed m =>
    simp only [epicFileCandidate] at h
    split at h
    · split at h
      · split at h
        · cases Option.some.inj h
          exact ⟨rfl, by assumption⟩
        · exact Option.noConfusion h
      · exact Option.noConfusion h
    · exact Option.noConfusion h

theorem detectEpic_sound (fs : FS) (ew : EpicWorld) :
    ∀ g ∈ detectEpic fs ew,
      g.source = str "Epic" ∧ isValidCyberpunkPath fs g.path = true := by
  intro g hg
  obtain ⟨files⟩ := ew
  cases files with
  | none => simp [detectEpic] at hg
  | some fl =>
    simp only [detectEpic, List.mem_filterMap] at hg
    obtain ⟨f, _, heq⟩ := hg
    exact epicFileCandidate_sound fs f g heq

theorem detectCommonPaths_sound (fs : FS) :
    ∀ g ∈ detectCommonPaths fs,
      g.source = str "Common Path" ∧ isValidCyberpunkPath fs g.path = true := by
  intro g hg
  simp only [detectCommonPaths, List.mem_map, List.mem_filter] at hg
  obtain ⟨p, ⟨hmem, hval⟩, rfl⟩ := hg
  exact ⟨rfl, hval⟩

/-! ## Claim C1 -/

/-- C1: `detect_game_paths` output has exactly one entry per normalized
path (slashes to backslashes, then lower-case): the normalized keys of
the output are pairwise distinct, a key occurs in the output iff some
scanned candidate has it, and every surviving entry is the first
candidate with its key in scan order (so later duplicates are dropped
whatever their source, the key ignoring `source` entirely). -/
theorem detect_game_paths_dedup (onWindows : Bool) (w : World) :
    ((detectGamePaths onWindows w).map (fun g => normalizePath g.path)).Nodup ∧
    (∀ k, (∃ g ∈ detectGamePaths onWindows w, normalizePath g.path = k) ↔
      ∃ g ∈ allCandidates onWindows w, normalizePath g.path = k) ∧
    (∀ g ∈ detectGamePaths onWindows w,
      (allCandidates onWindows w).find?
        (fun h => decide (normalizePath h.path = normalizePath g.path)) = some g) := by
  refine ⟨dedupCandidates_keys_nodup _ _, ?_, dedupCandidates_first_wins _ _⟩
  intro k
  have h := dedupCandidates_mem_key (allCandidates onWindows w) [] k
  simpa [detectGamePaths] using h

/-- C1 witness: in `sampleWorld` the Steam entry and the static entry
share a normalized path; the survivor is the Steam entry, the first in
scan order. -/
theorem detect_game_paths_dedup_witness :
    (allCandidates true sampleWorld).find?
      (fun h => decide (normalizePath h.path = normalizePath sampleSteamGame.path)) =
      some sampleSteamGame :=
  (detect_game_paths_dedup true sampleWorld).2.2 sampleSteamGame (by decide)

/-! ## Claim C8 -/

/-- C8: the candidate list is the platform-gated scanners in the fixed
order Steam, GOG, Epic (only on Windows), then unconditionally the
static scanner last, concatenated in discovery order; deduplication runs
afterwards and only drops entries, preserving that order. -/
theorem detect_game_paths_order (w : World) (onWindows : Bool) :
    allCandidates true w =
      detectSteam w.fs w.steam ++ detectGog w.fs w.gog ++ detectEpic w.fs w.epic ++
        detectCommonPaths w.fs ∧
    allCandidates false w = detectCommonPaths w.fs ∧
    detectGamePaths onWindows w = dedupCandidates (allCandidates onWindows w) [] ∧
    (detectGamePaths onWindows w).Sublist (allCandidates onWindows w) :=
  ⟨by simp [allCandidates, List.append_assoc], by simp [allCandidates], rfl,
    dedupCandidates_sublist _ _⟩

/-! ## Claim C10 -/

/-- C10: every resolver output entry carries a source from the fixed set
{Steam, GOG, Epic, Common Path}, and its path passed
`is_valid_cyberpunk_path` when its scanner emitted it. -/
theorem detect_game_paths_invariant (onWindows : Bool) (w : World) :
    ∀ g ∈ detectGamePaths onWindows w,
      g.source ∈ [str "Steam", str "GOG", str "Epic", str "Common Path"] ∧
      isValidCyberpunkPath w.fs g.path = true := by
  intro g hg
  have hmem : g ∈ allCandidates onWindows w :=
    (dedupCandidates_sublist _ _).subset hg
  simp only [allCandidates, List.mem_append] at hmem
  rcases hmem with h | h
  · cases onWindows with
    | false => simp at h
    | true =>
      simp only [if_true, List.mem_append] at h
      rcases h with (h | h) | h
      · have hs := detectSteam_sound w.fs w.steam g h
        exact ⟨by simp [hs.1], hs.2⟩
      · have hs := detectGog_sound w.fs w.gog g h
        exact ⟨by simp [hs.1], hs.2⟩
      · have hs := detectEpic_sound w.fs w.epic g h
        exact ⟨by simp [hs.1], hs.2⟩
  · have hs := detectCommonPaths_sound w.fs g h
    exact ⟨by simp [hs.1], hs.2⟩

/-- C10 witness: the Steam entry of `sampleWorld` carries an allowed
source and a probed path. -/
theorem detect_game_paths_invariant_witness :
    sampleSteamGame.source ∈
      [str "Steam", str "GOG", str "Epic", str "Common Path"] ∧
    isValidCyberpunkPath sampleWorld.fs sampleSteamGame.path = true :=
  detect_game_paths_invariant true sampleWorld sampleSteamGame (by decide)

/-! ## Claim C7 -/

/-- A non-parsed Epic file contributes no candidate. -/
theorem epicFileCandidate_not_parsed (fs : FS) (b : EpicFile)
    (hbad : ∀ m, b ≠ EpicFile.parsed m) : epicFileCandidate fs b = none := by
  cases b with
  | notItem => rfl
  | unreadable => rfl
  | malformed => rfl
  | parsed m => exact absurd rfl (hbad m)

/-- C7: scanners are independently fault-tolerant: a corrupted Epic
manifest file is skipped and only it; the resolver's output is the same
as if the file were absent; a missing Steam registry key, missing GOG
registry views, or a missing Epic manifests directory short-circuit that
scanner to an empty result; a missing `DisplayName` or `InstallLocation`
field skips just that manifest; an unreadable `libraryfolders.vdf`
degrades the Steam scanner to its primary root only; and the other
scanners' candidates never depend on the Epic input. -/
theorem scanner_isolation (onWindows : Bool) (w : World)
    (pre post : List EpicFile) (bad : EpicFile)
    (hbad : ∀ m, bad ≠ EpicFile.parsed m)
    (hfiles : w.epic.files = some (pre ++ bad :: post)) :
    detectEpic w.fs w.epic = detectEpic w.fs ⟨some (pre ++ post)⟩ ∧
    detectGamePaths onWindows w =
      detectGamePaths onWindows { w with epic := ⟨some (pre ++ post)⟩ } ∧
    detectSteam w.fs ⟨none, w.steam.vdfContent⟩ = [] ∧
    detectGog w.fs ⟨none, none⟩ = [] ∧
    detectEpic w.fs ⟨none⟩ = [] ∧
    (∀ dn, epicFileCandidate w.fs (.parsed ⟨dn, none⟩) = none) ∧
    (∀ loc, epicFileCandidate w.fs (.parsed ⟨none, loc⟩) = none) ∧
    (∀ sp, detectSteam w.fs ⟨some sp, none⟩ =
      if isValidCyberpunkPath w.fs (steamGamePath sp) = true
      then [⟨steamGamePath sp, str "Steam"⟩] else []) ∧
    (∀ e', allCandidates onWindows { w with epic := e' } =
      (if onWindows then
        detectSteam w.fs w.steam ++ detectGog w.fs w.gog ++ detectEpic w.fs e'
       else []) ++ detectCommonPaths w.fs) := by
  have hskip : detectEpic w.fs w.epic = detectEpic w.fs ⟨some (pre ++ post)⟩ := by
    unfold detectEpic
    rw [hfiles]
    show (pre ++ bad :: post).filterMap (epicFileCandidate w.fs) =
      (pre ++ post).filterMap (epicFileCandidate w.fs)
    rw [List.filterMap_append, List.filterMap_append, List.filterMap_cons,
      epicFileCandidate_not_parsed w.fs bad hbad]
  refine ⟨hskip, ?_, ?_, rfl, rfl, ?_, ?_, ?_, ?_⟩
  · simp only [detectGamePaths, allCandidates]
    rw [hskip]
  · cases hvdf : w.steam.vdfContent <;> rfl
  · intro dn
    simp only [epicFileCandidate]
    split <;> rfl
  · intro loc
    rfl
  · intro sp
    by_cases hv : isValidCyberpunkPath w.fs (steamGamePath sp) = true
    · simp [detectSteam, steamLibraryPaths, hv]
    · simp [detectSteam, steamLibraryPaths, hv]
  · intro e'
    cases onWindows <;> simp [allCandidates]

/-- C7 witness: a world whose Epic manifest directory holds one
unparsable file produces the same Epic candidates as one with no file. -/
theorem scanner_isolation_witness :
    detectEpic corruptedWorld.fs corruptedWorld.epic =
      detectEpic corruptedWorld.fs ⟨some ([] ++ [])⟩ :=
  (scanner_isolation true corruptedWorld [] [] EpicFile.malformed
    (fun _ h => EpicFile.noConfusion h) rfl).1

end RipperMod
